import Mathlib

/-!
Verification development for the wkagent repository.

The definitions below are a shallow embedding of the JavaScript source:
  * `EnhancedAgentMemory` and its operations come from the enhanced memory
    module (class `EnhancedAgentMemory`).
  * `SubAgentManager` bookkeeping, `SubAgent.execute`, `SubAgent.executeSteps`
    and `SubAgent.executeStep` come from `src/sub-agent.js`.
  * `ToolRegistry.validateParams` and the default tool schemas come from
    `agent-core.js`.

JavaScript numbers are modelled as `Nat` (or `Int` where the source can go
negative), objects as structures, absent fields as `Option`/empty strings,
and exceptions as `Except`.  `Date.now()` is threaded as an explicit `now`
argument.
-/

namespace WkAgent

/-! ## Definitions: shallow embedding of the source -/

/-- Input to `addMessage`.  An empty `role`/`type`/`content` string models a
missing (undefined) field, which the source coerces with `||` defaults. -/
structure MsgInput where
  role : String
  content : String
  type : String
deriving Repr, DecidableEq

/-- An enriched message as stored by `addMessage`.  The random suffix of
`generateId` and the `metadata` sub-object (`tool`, `function_call`,
`finish_reason`) are not modelled: no claim observes them. -/
structure Message where
  id : String
  role : String
  content : String
  type : String
  timestamp : Nat
  tokenCount : Nat
deriving Repr, DecidableEq

/-- Number of maximal whitespace runs in a character list.  The boolean
argument records whether the previous character was whitespace. -/
def wsRunsAux : Bool → List Char → Nat
  | _, [] => 0
  | inRun, c :: cs =>
    if c.isWhitespace then (if inRun then 0 else 1) + wsRunsAux true cs
    else wsRunsAux false cs

/-- Length of `text.split(/\s+/)` for a nonempty JS string: one more than the
number of maximal whitespace runs (leading or trailing whitespace contributes
an empty array element, exactly as in JS). -/
def jsSplitWsCount (s : String) : Nat := 1 + wsRunsAux false s.data

/-- `estimateTokens(text)`: `Math.ceil(text.split(/\s+/).length * 1.33)` with
a guard returning 0 for empty text.  The factor 1.33 is modelled as the exact
rational 133/100 (the spec explicitly does not require tokenizer parity). -/
def estimateTokens (text : String) : Nat :=
  if text = "" then 0 else (jsSplitWsCount text * 133 + 99) / 100

/-- The `contextStats` counters. -/
structure ContextStats where
  totalTokens : Nat
  userMessages : Nat
  assistantMessages : Nat
  toolCalls : Nat
  compressionCount : Nat
  sessionStart : Nat
  lastCompressTime : Nat
deriving Repr, DecidableEq

/-- A `mediumTerm` entry pushed by `compressMemory`.  The eight-section
`summary` object built by `generateStructuredSummary` and the constant float
`compressionRatio: 0.8` are not modelled: no claim inspects their content,
only the number of entries and the metadata below. -/
structure CompressedEntry where
  typ : String
  originalCount : Nat
  originalTokens : Nat
  timestamp : Nat
deriving Repr, DecidableEq

/-- The `messagesByRole` object. -/
structure MessagesByRole where
  user : List Message
  assistant : List Message
  system : List Message
  tool : List Message
deriving Repr, DecidableEq

/-- State of one `EnhancedAgentMemory` instance. -/
structure EnhancedAgentMemory where
  shortTerm : List Message
  mediumTerm : List CompressedEntry
  longTerm : List (String × String)
  llmMessages : List Message
  messagesByRole : MessagesByRole
  contextStats : ContextStats
deriving Repr, DecidableEq

/-- The constructor state. -/
def freshMemory (now : Nat) : EnhancedAgentMemory :=
  { shortTerm := []
    mediumTerm := []
    longTerm := []
    llmMessages := []
    messagesByRole := ⟨[], [], [], []⟩
    contextStats := ⟨0, 0, 0, 0, 0, now, now⟩ }

/-- `compressionConfig.tokenThreshold = 4000 * 0.92`, exact. -/
def tokenThreshold : Nat := 3680

/-- `compressionConfig.messageThreshold`. -/
def messageThreshold : Nat := 100

/-- The roles admitted into `llmMessages` by `addMessage`. -/
def llmRoles : List String := ["user", "assistant", "system", "tool"]

/-- The enriched message built at the top of `addMessage`. -/
def enrich (m : MsgInput) (now : Nat) : Message :=
  { id := "msg_" ++ toString now
    role := if m.role = "" then "system" else m.role
    content := m.content
    type := if m.type = "" then "general" else m.type
    timestamp := now
    tokenCount := estimateTokens m.content }

/-- `updateContextStats(message)`: adds `tokenCount || 0` (the token count is
a natural number here, so the `|| 0` fallback is the identity) and bumps the
per-role counter. -/
def updateContextStats (cs : ContextStats) (m : Message) : ContextStats :=
  { cs with
    totalTokens := cs.totalTokens + m.tokenCount
    userMessages := cs.userMessages + (if m.role = "user" then 1 else 0)
    assistantMessages := cs.assistantMessages + (if m.role = "assistant" then 1 else 0)
    toolCalls := cs.toolCalls + (if m.role = "tool" then 1 else 0) }

/-- `reduce((sum, msg) => sum + (msg.tokenCount || 0), 0)`. -/
def sumTokens (l : List Message) : Nat := (l.map Message.tokenCount).sum

/-- `shouldCompress()`. -/
def shouldCompress (st : EnhancedAgentMemory) : Bool :=
  tokenThreshold < st.contextStats.totalTokens ||
    messageThreshold < st.shortTerm.length

/-- `array.slice(-n)` for positive `n`: the last `min n length` elements. -/
def jsSliceLast (n : Nat) (l : List α) : List α := l.drop (l.length - n)

/-- `cleanupOldMessages()`: drops from every `messagesByRole` bucket the
messages older than 24 hours.  The cutoff is an `Int` because
`Date.now() - 24h` can be negative for small clock values. -/
def cleanupOldMessages (st : EnhancedAgentMemory) (now : Nat) : EnhancedAgentMemory :=
  let cutoff : Int := (now : Int) - 86400000
  let keep : Message → Bool := fun m => cutoff < (m.timestamp : Int)
  { st with messagesByRole :=
      ⟨st.messagesByRole.user.filter keep,
       st.messagesByRole.assistant.filter keep,
       st.messagesByRole.system.filter keep,
       st.messagesByRole.tool.filter keep⟩ }

/-- Metadata of the entry `compressMemory` pushes onto `mediumTerm`
(`originalCount`/`originalTokens` are read off the pre-truncation state). -/
def mkCompressedEntry (st : EnhancedAgentMemory) (now : Nat) : CompressedEntry :=
  { typ := "structured_compression"
    originalCount := st.shortTerm.length
    originalTokens := st.contextStats.totalTokens
    timestamp := now }

/-- `compressMemory()`: push one summary entry, keep the last 20 short-term
messages, clean the per-role buckets, bump the compression counter and
recompute `totalTokens` from the retained short-term subset. -/
def compressMemory (st : EnhancedAgentMemory) (now : Nat) : EnhancedAgentMemory :=
  let entry := mkCompressedEntry st now
  let st1 := { st with
    mediumTerm := st.mediumTerm ++ [entry]
    shortTerm := jsSliceLast 20 st.shortTerm }
  let st2 := cleanupOldMessages st1 now
  { st2 with contextStats := { st2.contextStats with
      compressionCount := st2.contextStats.compressionCount + 1
      lastCompressTime := now
      totalTokens := sumTokens st2.shortTerm } }

/-- The unconditional part of `addMessage`: enrich, push onto `shortTerm`,
push onto `llmMessages`/`messagesByRole` when the role is an LLM role, and
update the counters. -/
def ingest (st : EnhancedAgentMemory) (input : MsgInput) (now : Nat) : EnhancedAgentMemory :=
  let m := enrich input now
  let st1 := { st with shortTerm := st.shortTerm ++ [m] }
  let st2 :=
    if llmRoles.contains m.role then
      { st1 with
        llmMessages := st1.llmMessages ++ [m]
        messagesByRole :=
          ⟨if m.role = "user" then st1.messagesByRole.user ++ [m] else st1.messagesByRole.user,
           if m.role = "assistant" then st1.messagesByRole.assistant ++ [m] else st1.messagesByRole.assistant,
           if m.role = "system" then st1.messagesByRole.system ++ [m] else st1.messagesByRole.system,
           if m.role = "tool" then st1.messagesByRole.tool ++ [m] else st1.messagesByRole.tool⟩ }
    else st1
  { st2 with contextStats := updateContextStats st2.contextStats m }

/-- `addMessage(message)`: ingest, then compress synchronously when
`shouldCompress()` holds on the post-insertion state. -/
def addMessage (st : EnhancedAgentMemory) (input : MsgInput) (now : Nat) : EnhancedAgentMemory :=
  let st' := ingest st input now
  if shouldCompress st' then compressMemory st' now else st'

/-- A sequence of `addMessage` calls, each with its own clock value. -/
def runAdds (st : EnhancedAgentMemory) (l : List (MsgInput × Nat)) : EnhancedAgentMemory :=
  l.foldl (fun s p => addMessage s p.1 p.2) st

/-- The invariant of claim C1. -/
def tokensInvariant (st : EnhancedAgentMemory) : Prop :=
  st.contextStats.totalTokens = sumTokens st.shortTerm

/-- A user message of seven words: `estimateTokens` gives
`ceil(7 * 1.33) = 10` tokens, the spec scenario's "~10 tokens". -/
def scenarioMsg : MsgInput := ⟨"user", "w w w w w w w", ""⟩

/-- The spec scenario: 101 appends of a ~10-token message. -/
def scenario101 : List (MsgInput × Nat) := List.replicate 101 (scenarioMsg, 0)

/-- The object returned by `exportSession()`. -/
structure SessionExport where
  shortTerm : List Message
  mediumTerm : List CompressedEntry
  longTerm : List (String × String)
  llmMessages : List Message
  messagesByRole : MessagesByRole
  contextStats : ContextStats
  exportTime : Nat
deriving Repr, DecidableEq

def exportSession (st : EnhancedAgentMemory) (now : Nat) : SessionExport :=
  ⟨st.shortTerm, st.mediumTerm, st.longTerm, st.llmMessages, st.messagesByRole,
   st.contextStats, now⟩

/-- Payload accepted by `importSession(data)`; `none` models an absent
(undefined) field, which the source replaces with a default via `||` or by
leaving the spread a no-op.  A `contextStats` object carrying only a subset
of the keys is not modelled: `exportSession` always emits the full object,
and the spread `{...this.contextStats, ...data.contextStats}` then yields
`data.contextStats` verbatim. -/
structure SessionData where
  shortTerm : Option (List Message)
  mediumTerm : Option (List CompressedEntry)
  longTerm : Option (List (String × String))
  llmMessages : Option (List Message)
  messagesByRole : Option MessagesByRole
  contextStats : Option ContextStats
deriving Repr, DecidableEq

/-- `importSession(data)`. -/
def importSession (st : EnhancedAgentMemory) (d : SessionData) : EnhancedAgentMemory :=
  { shortTerm := d.shortTerm.getD []
    mediumTerm := d.mediumTerm.getD []
    longTerm := d.longTerm.getD []
    llmMessages := d.llmMessages.getD []
    messagesByRole := d.messagesByRole.getD ⟨[], [], [], []⟩
    contextStats := d.contextStats.getD st.contextStats }

/-- An exported session viewed as an import payload (every field present;
`exportTime` is not read by `importSession`). -/
def exportToData (e : SessionExport) : SessionData :=
  ⟨some e.shortTerm, some e.mediumTerm, some e.longTerm, some e.llmMessages,
   some e.messagesByRole, some e.contextStats⟩

/-- The projection `{role, content, timestamp}` applied to each message
returned by `getLLMContext`. -/
structure CtxMessage where
  role : String
  content : String
  timestamp : Nat
deriving Repr, DecidableEq

def projectMsg (m : Message) : CtxMessage := ⟨m.role, m.content, m.timestamp⟩

/-- The backward walk of `getLLMContext`: `rev` is the message history
newest-first, `acc` the output built by `unshift`, `cur` the running token
count; the walk stops at the first message that would overflow `maxTokens`. -/
def ctxLoop (maxTokens : Nat) : List Message → List CtxMessage → Nat → (List CtxMessage × Nat)
  | [], acc, cur => (acc, cur)
  | m :: rest, acc, cur =>
    if maxTokens < cur + m.tokenCount then (acc, cur)
    else ctxLoop maxTokens rest (projectMsg m :: acc) (cur + m.tokenCount)

/-- Return value of `getLLMContext`.  The float field
`compressionRatio: currentTokens / totalTokens || 0` is not modelled (no
claim reads it, and its NaN fallback is floating-point behaviour). -/
structure LLMContext where
  messages : List CtxMessage
  totalTokens : Nat
  messageCount : Nat
deriving Repr, DecidableEq

/-- `getLLMContext(maxTokens = 4000)`: walk `llmMessages` from the newest
message backward, unshifting while the running token count stays within
`maxTokens`. -/
def getLLMContext (st : EnhancedAgentMemory) (maxTokens : Nat) : LLMContext :=
  let p := ctxLoop maxTokens st.llmMessages.reverse [] 0
  ⟨p.1, p.2, p.1.length⟩

/-- The full message history of a run of `addMessage` calls. -/
def historyOf (l : List (MsgInput × Nat)) : List Message :=
  l.map (fun p => enrich p.1 p.2)

/-- Two LLM-role messages used to instantiate claim C3. -/
def c3Adds : List (MsgInput × Nat) :=
  [(⟨"user", "a b c", ""⟩, 0), (⟨"assistant", "d e", ""⟩, 1)]

/-- A JavaScript value as far as parameter validation observes it
(floats and their NaN are not modelled). -/
inductive JsValue where
  | undefined
  | null
  | bool (b : Bool)
  | num (n : Int)
  | str (s : String)
deriving Repr, DecidableEq

/-- JS truthiness, the test performed by `!params[key]`. -/
def jsTruthy : JsValue → Bool
  | .undefined => false
  | .null => false
  | .bool b => b
  | .num n => n != 0
  | .str s => s != ""

/-- A `params` object. -/
abbrev Params : Type := List (String × JsValue)

/-- `params[key]`: `undefined` when the key is absent. -/
def lookupParam (params : Params) (key : String) : JsValue :=
  match List.find? (fun kv => kv.1 == key) params with
  | some kv => kv.2
  | none => .undefined

/-- One schema entry, `{type, required, description}`. -/
structure ParamSpec where
  type : String
  required : Bool
  description : String
deriving Repr, DecidableEq

/-- A registered tool as validation observes it; the `execute` callable is
passed separately to `executeStepWith`, and `name`/`description` are not
read by any claim. -/
structure Tool where
  schema : List (String × ParamSpec)
deriving Repr, DecidableEq

def readTool : Tool := ⟨[("path", ⟨"string", true, "文件路径"⟩)]⟩

def writeTool : Tool :=
  ⟨[("path", ⟨"string", true, "文件路径"⟩), ("content", ⟨"string", true, "文件内容"⟩)]⟩

def editTool : Tool :=
  ⟨[("path", ⟨"string", true, "文件路径"⟩),
    ("oldString", ⟨"string", true, "要替换的字符串"⟩),
    ("newString", ⟨"string", true, "新字符串"⟩)]⟩

def bashTool : Tool := ⟨[("command", ⟨"string", true, "要执行的命令"⟩)]⟩

def globTool : Tool :=
  ⟨[("pattern", ⟨"string", true, "匹配模式"⟩), ("cwd", ⟨"string", false, "工作目录"⟩)]⟩

def grepTool : Tool :=
  ⟨[("pattern", ⟨"string", true, "搜索模式"⟩), ("files", ⟨"string", false, "文件模式"⟩),
    ("cwd", ⟨"string", false, "工作目录"⟩)]⟩

/-- `ToolRegistry.get` after `initializeDefaultTools()`. -/
def defaultRegistry : String → Option Tool := fun name =>
  if name = "read" then some readTool
  else if name = "write" then some writeTool
  else if name = "edit" then some editTool
  else if name = "bash" then some bashTool
  else if name = "glob" then some globTool
  else if name = "grep" then some grepTool
  else none

/-- Return value of `validateParams`. -/
structure ValidationResult where
  valid : Bool
  error : Option String
deriving Repr, DecidableEq

/-- The `Object.entries(schema)` loop of `validateParams`, in insertion
order. -/
def validateSchema : List (String × ParamSpec) → Params → ValidationResult
  | [], _ => ⟨true, none⟩
  | (key, spec) :: rest, params =>
    if spec.required && !(jsTruthy (lookupParam params key)) then
      ⟨false, some ("缺少必需参数: " ++ key)⟩
    else validateSchema rest params

/-- `validateParams(toolName, params)`. -/
def validateParams (tools : String → Option Tool) (toolName : String)
    (params : Params) : ValidationResult :=
  match tools toolName with
  | none => ⟨false, some "工具不存在"⟩
  | some tool => validateSchema tool.schema params

/-- A tool's return object `{success, ...payload}`, payload collapsed to a
string. -/
structure ToolResult where
  success : Bool
  payload : String
deriving Repr, DecidableEq

/-- The per-step record built by `executeStep` (success path carries
`params`/`result`, the catch path carries `error`). -/
structure StepResult where
  stepNumber : Nat
  totalSteps : Nat
  step : String
  tool : String
  params : Option Params
  result : Option ToolResult
  error : Option String
  success : Bool
  duration : Nat
deriving Repr, DecidableEq

/-- `SubAgent.executeStep(step, stepNumber, totalSteps)` from the point
where the tool name and params have been computed (the keyword heuristics
`selectToolForStep`/`parseStepParams` are its first two lines and are inputs
here); `execs` is the `execute` implementation behind the registry.  An
invalid validation throws, and the catch turns the throw into a failure
record without ever calling the tool. -/
def executeStepWith (tools : String → Option Tool) (execs : String → Params → ToolResult)
    (tool : String) (params : Params) (step : String)
    (stepNumber totalSteps duration : Nat) : StepResult :=
  let validation := validateParams tools tool params
  if validation.valid then
    let result := execs tool params
    ⟨stepNumber, totalSteps, step, tool, some params, some result, none, result.success, duration⟩
  else
    ⟨stepNumber, totalSteps, step, tool, none, none,
      some ("参数验证失败: " ++ validation.error.getD ""), false, duration⟩

/-- A params object whose only entry is present but falsy. -/
def c8Params : Params := [("path", JsValue.str "")]

/-- Usage record returned by `getMemoryUsage()`. -/
structure MemoryUsage where
  shortTerm : Nat
  mediumTerm : Nat
  totalMessages : Nat
deriving Repr, DecidableEq

/-- Result object of `SubAgent.execute`: the success shape carries
`{steps, results, summary, duration, memoryUsage, success: true}`, the catch
shape `{error, duration, success: false}`; the constant `subAgentId` and
`parentId` fields are not modelled. -/
inductive SubAgentResult where
  | ok (task : String) (steps : List String) (results : List StepResult)
      (summary : String) (duration : Nat) (memoryUsage : MemoryUsage)
  | err (task : String) (error : String) (duration : Nat)
deriving Repr, DecidableEq

/-- The `success` flag of the returned object. -/
def SubAgentResult.success : SubAgentResult → Bool
  | .ok .. => true
  | .err .. => false

/-- Environment of one `execute` call: the abort-signal value at entry and
the outcome of each pipeline phase; an `Except.error` models an exception
escaping that phase (`decomposeTask` and `summarizeResults` catch their LLM
failures internally, `executeSteps` throws on an observed abort). -/
structure UnitEnv where
  abortedAtEntry : Bool
  decompose : Except String (List String)
  runSteps : List String → Except String (List StepResult)
  summarize : List StepResult → Except String String
  now : Nat
  start : Nat
  memoryUsage : MemoryUsage

/-- The body of `SubAgent.execute`'s try block: signal check, decompose,
execute steps, summarize. -/
def runPipeline (env : UnitEnv) : Except String (List String × List StepResult × String) := do
  if env.abortedAtEntry then throw "SubAgent执行被中断"
  let steps ← env.decompose
  let results ← env.runSteps steps
  let summary ← env.summarize results
  pure (steps, results, summary)

/-- `SubAgent.execute(subTask)`: the whole pipeline inside one try/catch
whose catch returns (never rethrows) an error result. -/
def executeUnit (env : UnitEnv) (task : String) : SubAgentResult :=
  match runPipeline env with
  | .ok (steps, results, summary) =>
      .ok task steps results summary (env.now - env.start) env.memoryUsage
  | .error e => .err task e (env.now - env.start)

/-- Observable behaviour of one `executeSteps` run: which step indices were
handed to `executeStep`, which results were recorded into the private memory
(`addToShortTerm`), and the returned results or thrown abort error. -/
structure StepsRun where
  dispatched : List Nat
  recorded : List StepResult
  outcome : Except String (List StepResult)

/-- The `for` loop of `executeSteps`: before step `i` the signal is polled
(`ab i`), then the step runs and its result is pushed to both the local
results array and the memory. -/
def executeStepsLoop (ab : Nat → Bool) (runStep : Nat → String → StepResult) :
    List String → Nat → List Nat → List StepResult → List StepResult → StepsRun
  | [], _, disp, recd, acc => ⟨disp, recd, .ok acc⟩
  | s :: rest, i, disp, recd, acc =>
    if ab i then ⟨disp, recd, .error "SubAgent步骤执行被中断"⟩
    else
      let r := runStep i s
      executeStepsLoop ab runStep rest (i + 1) (disp ++ [i]) (recd ++ [r]) (acc ++ [r])

/-- `SubAgent.executeSteps(steps)`; `ab i` is the value of
`abortController.signal.aborted` observed at the check before step `i`
(0-based) and `runStep i s` the result of `executeStep(s, i+1, steps.length)`. -/
def executeSteps (steps : List String) (ab : Nat → Bool)
    (runStep : Nat → String → StepResult) : StepsRun :=
  executeStepsLoop ab runStep steps 0 [] [] []

/-- Concrete two-step instance for claim C9. -/
def c9Steps : List String := ["第一步", "第二步"]

/-- A token set during step 1: observed clear before step index 0, set from
index 1 on. -/
def c9Ab : Nat → Bool := fun i => decide (1 ≤ i)

/-- A concrete outcome for each dispatched step. -/
def c9RunStep : Nat → String → StepResult :=
  fun i s => ⟨i + 1, 2, s, "bash", none, none, none, true, 0⟩

/-- `SubAgentManager` state: the id keys of the `subAgents` map in insertion
order, the `activeSubAgents` counter (an `Int`: the source decrements it on
every terminal event, which can drive it below zero), the `maxSubAgents`
ceiling, and a source of fresh unit ids. -/
structure ManagerState where
  subAgents : List Nat
  activeSubAgents : Int
  maxSubAgents : Nat
  nextId : Nat
deriving Repr, DecidableEq

/-- `new SubAgentManager(cfg)`. -/
def freshManager (maxSubAgents : Nat) : ManagerState := ⟨[], 0, maxSubAgents, 0⟩

/-- `createSubAgent(taskInfo)`: throws at the ceiling (checked against the
counter), otherwise registers the new unit and bumps the counter. -/
def createSubAgent (st : ManagerState) : Except String (ManagerState × Nat) :=
  if (st.maxSubAgents : Int) ≤ st.activeSubAgents then
    .error "已达到最大SubAgent数量限制"
  else
    .ok ({ st with
      subAgents := st.subAgents ++ [st.nextId]
      activeSubAgents := st.activeSubAgents + 1
      nextId := st.nextId + 1 }, st.nextId)

/-- The manager's listener body for a unit's `complete`/`error`/`aborted`
events: `subAgents.delete(id)` and `activeSubAgents--`, unconditionally. -/
def releaseUnit (st : ManagerState) (id : Nat) : ManagerState :=
  { st with
    subAgents := st.subAgents.filter (fun x => x ≠ id)
    activeSubAgents := st.activeSubAgents - 1 }

/-- `SubAgent.abort()` as observed by the manager: it emits `aborted`
unconditionally (there is no already-aborted guard and the listener is never
detached), so each call fires `releaseUnit` once. -/
def abortUnit (st : ManagerState) (id : Nat) : ManagerState := releaseUnit st id

/-- The manager state after a `createSubAgent` call whose thrown capacity
error (if any) is caught by the caller. -/
def afterCreate (st : ManagerState) : ManagerState :=
  match createSubAgent st with
  | .ok (st', _) => st'
  | .error _ => st

/-- The failing trace for claim C2: with `maxSubAgents = 1`, create unit 0,
call `abort()` on it twice (each emission fires the listener and decrements
the counter), then call `createSubAgent` twice more. -/
def c2Trace : ManagerState :=
  let m1 := afterCreate (freshManager 1)
  let m2 := abortUnit m1 0
  let m3 := abortUnit m2 0
  afterCreate (afterCreate m3)

/-- A task info passed to `createSubAgents`. -/
structure TaskInfo where
  description : String
  task : String
deriving Repr, DecidableEq

/-- One iteration of the `createSubAgents` loop: a thrown capacity error is
caught (and merely logged), the loop continues. -/
def createStep (acc : ManagerState × List TaskInfo) (t : TaskInfo) :
    ManagerState × List TaskInfo :=
  match createSubAgent acc.1 with
  | .ok (st', _) => (st', acc.2 ++ [t])
  | .error _ => acc

/-- `createSubAgents(tasks)`: one `createSubAgent` attempt per task info, in
order; returns the created units, each represented by the task info it
carries. -/
def createSubAgents (st : ManagerState) (tasks : List TaskInfo) :
    ManagerState × List TaskInfo :=
  tasks.foldl createStep (st, [])

/-- A `Promise.allSettled` entry. -/
inductive Settled (α : Type) where
  | fulfilled (value : α)
  | rejected (reason : String)
deriving Repr, DecidableEq

/-- `executeConcurrent(tasks)`: create, run every created unit, and collect
with `Promise.allSettled`; `env` supplies each unit's execution environment.
`executeUnit` is total (claim C10), so every settled entry is `fulfilled`. -/
def executeConcurrent (st : ManagerState) (tasks : List TaskInfo)
    (env : TaskInfo → UnitEnv) : List (Settled SubAgentResult) :=
  ((createSubAgents st tasks).2).map
    (fun t => Settled.fulfilled (executeUnit (env t) t.task))

/-! ## Theorems -/
theorem ingest_shortTerm (st : EnhancedAgentMemory) (input : MsgInput) (now : Nat) :
    (ingest st input now).shortTerm = st.shortTerm ++ [enrich input now] := by
  unfold ingest
  dsimp only
  split <;> rfl

theorem ingest_totalTokens (st : EnhancedAgentMemory) (input : MsgInput) (now : Nat) :
    (ingest st input now).contextStats.totalTokens =
      st.contextStats.totalTokens + (enrich input now).tokenCount := by
  unfold ingest updateContextStats
  dsimp only
  split <;> rfl

theorem sumTokens_append (l : List Message) (m : Message) :
    sumTokens (l ++ [m]) = sumTokens l + m.tokenCount := by
  simp [sumTokens]

theorem compressMemory_tokensInvariant (st : EnhancedAgentMemory) (now : Nat) :
    tokensInvariant (compressMemory st now) := by
  unfold tokensInvariant compressMemory cleanupOldMessages
  rfl

theorem addMessage_tokensInvariant (st : EnhancedAgentMemory) (input : MsgInput) (now : Nat)
    (h : tokensInvariant st) : tokensInvariant (addMessage st input now) := by
  unfold addMessage
  by_cases hc : shouldCompress (ingest st input now) = true
  · simpa [hc] using compressMemory_tokensInvariant (ingest st input now) now
  · simp only [hc, Bool.false_eq_true, if_false]
    unfold tokensInvariant at h ⊢
    rw [ingest_totalTokens, ingest_shortTerm, sumTokens_append, h]

theorem runAdds_tokensInvariant (l : List (MsgInput × Nat)) (st : EnhancedAgentMemory)
    (h : tokensInvariant st) : tokensInvariant (runAdds st l) := by
  induction l generalizing st with
  | nil => simpa [runAdds] using h
  | cons p rest ih =>
    have : runAdds st (p :: rest) = runAdds (addMessage st p.1 p.2) rest := rfl
    rw [this]
    exact ih _ (addMessage_tokensInvariant st p.1 p.2 h)

/-- Claim C1: for every sequence of `addMessage` calls on a freshly
constructed `EnhancedAgentMemory` (including any compressions those calls
trigger), `contextStats.totalTokens` equals the sum of the `tokenCount`
estimates of the messages currently held in `shortTerm`. -/
theorem totalTokens_eq_sum_shortTerm (n0 : Nat) (l : List (MsgInput × Nat)) :
    (runAdds (freshMemory n0) l).contextStats.totalTokens =
      sumTokens (runAdds (freshMemory n0) l).shortTerm :=
  runAdds_tokensInvariant l (freshMemory n0) rfl

theorem ingest_mediumTerm (st : EnhancedAgentMemory) (input : MsgInput) (now : Nat) :
    (ingest st input now).mediumTerm = st.mediumTerm := by
  unfold ingest
  dsimp only
  split <;> rfl

theorem compressMemory_mediumTerm (st : EnhancedAgentMemory) (now : Nat) :
    (compressMemory st now).mediumTerm = st.mediumTerm ++ [mkCompressedEntry st now] := rfl

theorem shouldCompress_iff (st : EnhancedAgentMemory) :
    shouldCompress st = true ↔
      (3680 < st.contextStats.totalTokens ∨ 100 < st.shortTerm.length) := by
  simp [shouldCompress, tokenThreshold, messageThreshold]

/-- Claim C4: after any `addMessage` call, compression is triggered exactly
when `contextStats.totalTokens` exceeds the token threshold (0.92 of the
4000-token budget, i.e. 3680) OR `shortTerm.length` exceeds the
message-count ceiling (100), both measured on the post-insertion state;
either condition alone suffices, and compression is never triggered when
neither holds. -/
theorem addMessage_compression_trigger (st : EnhancedAgentMemory) (input : MsgInput) (now : Nat) :
    addMessage st input now =
      (if 3680 < (ingest st input now).contextStats.totalTokens ∨
          100 < (ingest st input now).shortTerm.length
       then compressMemory (ingest st input now) now
       else ingest st input now)
    ∧ (addMessage st input now).mediumTerm.length =
        st.mediumTerm.length +
          (if 3680 < (ingest st input now).contextStats.totalTokens ∨
              100 < (ingest st input now).shortTerm.length
           then 1 else 0) := by
  have hmain : addMessage st input now =
      (if 3680 < (ingest st input now).contextStats.totalTokens ∨
          100 < (ingest st input now).shortTerm.length
       then compressMemory (ingest st input now) now
       else ingest st input now) := by
    simp only [addMessage, shouldCompress_iff]
  refine ⟨hmain, ?_⟩
  rw [hmain]
  by_cases h : 3680 < (ingest st input now).contextStats.totalTokens ∨
      100 < (ingest st input now).shortTerm.length
  · simp only [h, if_true]
    rw [compressMemory_mediumTerm, ingest_mediumTerm]
    simp
  · simp only [h, if_false]
    rw [ingest_mediumTerm]
    simp

set_option maxRecDepth 100000 in
/-- Claim C5: every `compressMemory` call appends exactly one compressed
summary (built from the current `shortTerm`) to `mediumTerm` and leaves
`shortTerm.length <= 20` (the retention window); appending 101 messages of
~10 tokens each to a fresh store yields, after the 101st append, exactly one
summary in `mediumTerm` and `shortTerm.length` equal to the retention
window. -/
theorem compress_retention_and_scenario :
    (∀ (st : EnhancedAgentMemory) (now : Nat),
       (compressMemory st now).mediumTerm = st.mediumTerm ++ [mkCompressedEntry st now]
       ∧ (compressMemory st now).shortTerm.length ≤ 20)
    ∧ (runAdds (freshMemory 0) scenario101).mediumTerm.length = 1
    ∧ (runAdds (freshMemory 0) scenario101).shortTerm.length = 20 := by
  refine ⟨fun st now => ⟨rfl, ?_⟩, ?_, ?_⟩
  · show (jsSliceLast 20 st.shortTerm).length ≤ 20
    simp only [jsSliceLast, List.length_drop]
    omega
  · decide
  · decide

/-- Claim C6: `exportSession()` followed by `importSession()` of the exported
value on a freshly constructed store reproduces `shortTerm`, `mediumTerm`,
`longTerm` and the `contextStats` counters identically. -/
theorem export_import_roundtrip (st : EnhancedAgentMemory) (now n0 : Nat) :
    (importSession (freshMemory n0) (exportToData (exportSession st now))).shortTerm = st.shortTerm
    ∧ (importSession (freshMemory n0) (exportToData (exportSession st now))).mediumTerm = st.mediumTerm
    ∧ (importSession (freshMemory n0) (exportToData (exportSession st now))).longTerm = st.longTerm
    ∧ (importSession (freshMemory n0) (exportToData (exportSession st now))).contextStats = st.contextStats :=
  ⟨rfl, rfl, rfl, rfl⟩

theorem sumTokens_reverse (l : List Message) : sumTokens l.reverse = sumTokens l := by
  simp only [sumTokens, List.map_reverse, List.sum_reverse]

theorem sumTokens_tail_le (l : List Message) : sumTokens l.tail ≤ sumTokens l := by
  cases l <;> simp [sumTokens]

theorem sumTokens_drop_add_le (l : List Message) (j : Nat) :
    ∀ d, sumTokens (l.drop (j + d)) ≤ sumTokens (l.drop j) := by
  intro d
  induction d with
  | zero => rfl
  | succ d ih =>
    have h1 : j + (d + 1) = (j + d) + 1 := by omega
    rw [h1, ← List.tail_drop]
    exact le_trans (sumTokens_tail_le _) ih

theorem sumTokens_drop_mono (l : List Message) {j j' : Nat} (h : j ≤ j') :
    sumTokens (l.drop j') ≤ sumTokens (l.drop j) := by
  have := sumTokens_drop_add_le l j (j' - j)
  rwa [Nat.add_sub_cancel' h] at this

/-- The greedy walk takes a maximal prefix `p` of the reversed history whose
token sum stays within budget and stops right before the head of `q`. -/
theorem ctxLoop_spec (maxTokens : Nat) (rev : List Message) :
    ∀ (acc : List CtxMessage) (cur : Nat), cur ≤ maxTokens →
    ∃ p q, rev = p ++ q
      ∧ ctxLoop maxTokens rev acc cur = (p.reverse.map projectMsg ++ acc, cur + sumTokens p)
      ∧ cur + sumTokens p ≤ maxTokens
      ∧ ∀ m, q.head? = some m → maxTokens < cur + sumTokens p + m.tokenCount := by
  induction rev with
  | nil =>
    intro acc cur hcur
    exact ⟨[], [], by simp, by simp [ctxLoop, sumTokens], by simpa [sumTokens], by simp⟩
  | cons m rest ih =>
    intro acc cur hcur
    by_cases h : maxTokens < cur + m.tokenCount
    · refine ⟨[], m :: rest, by simp, by simp [ctxLoop, h, sumTokens], by simpa [sumTokens], ?_⟩
      intro m' hm'
      simp only [List.head?_cons, Option.some.injEq] at hm'
      subst hm'
      simpa [sumTokens] using h
    · have hcur' : cur + m.tokenCount ≤ maxTokens := Nat.le_of_not_lt h
      obtain ⟨p', q', hsplit, hloop, hle, hq⟩ := ih (projectMsg m :: acc) (cur + m.tokenCount) hcur'
      refine ⟨m :: p', q', by simp [hsplit], ?_, ?_, ?_⟩
      · have hstep : ctxLoop maxTokens (m :: rest) acc cur =
            ctxLoop maxTokens rest (projectMsg m :: acc) (cur + m.tokenCount) := by
          simp [ctxLoop, h]
        rw [hstep, hloop]
        simp only [Prod.mk.injEq]
        constructor
        · simp
        · simp [sumTokens]
          omega
      · simp only [sumTokens, List.map_cons, List.sum_cons] at hle ⊢
        omega
      · intro m' hm'
        have := hq m' hm'
        simp only [sumTokens, List.map_cons, List.sum_cons] at this ⊢
        omega

theorem compressMemory_llmMessages (st : EnhancedAgentMemory) (now : Nat) :
    (compressMemory st now).llmMessages = st.llmMessages := rfl

theorem ingest_llmMessages (st : EnhancedAgentMemory) (input : MsgInput) (now : Nat) :
    (ingest st input now).llmMessages =
      st.llmMessages ++
        (if llmRoles.contains (enrich input now).role then [enrich input now] else []) := by
  unfold ingest
  dsimp only
  split <;> simp_all

theorem addMessage_llmMessages (st : EnhancedAgentMemory) (input : MsgInput) (now : Nat) :
    (addMessage st input now).llmMessages = (ingest st input now).llmMessages := by
  unfold addMessage
  dsimp only
  split
  · exact compressMemory_llmMessages _ _
  · rfl

theorem runAdds_llmMessages (l : List (MsgInput × Nat)) (st : EnhancedAgentMemory)
    (h : ∀ p ∈ l, llmRoles.contains (enrich p.1 p.2).role = true) :
    (runAdds st l).llmMessages = st.llmMessages ++ historyOf l := by
  induction l generalizing st with
  | nil => simp [runAdds, historyOf]
  | cons p rest ih =>
    have hp : llmRoles.contains (enrich p.1 p.2).role = true := h p (by simp)
    have hrest : ∀ q ∈ rest, llmRoles.contains (enrich q.1 q.2).role = true :=
      fun q hq => h q (by simp [hq])
    have hstep : runAdds st (p :: rest) = runAdds (addMessage st p.1 p.2) rest := rfl
    rw [hstep, ih _ hrest, addMessage_llmMessages, ingest_llmMessages, hp]
    simp [historyOf]

/-- Claim C3: for every `maxTokens` bound and every message history
accumulated through `addMessage` (messages carrying the data model's LLM
roles), `getLLMContext` returns a chronologically ordered suffix of the full
message history — not merely `shortTerm`, and never drawing on `mediumTerm`
summaries — whose cumulative estimated token count is at most `maxTokens`,
and no longer suffix satisfies that bound. -/
theorem getLLMContext_longest_suffix (n0 maxTokens : Nat) (l : List (MsgInput × Nat))
    (h : ∀ p ∈ l, llmRoles.contains (enrich p.1 p.2).role = true) :
    ∃ k ≤ (historyOf l).length,
      (getLLMContext (runAdds (freshMemory n0) l) maxTokens).messages
          = ((historyOf l).drop ((historyOf l).length - k)).map projectMsg
      ∧ sumTokens ((historyOf l).drop ((historyOf l).length - k)) ≤ maxTokens
      ∧ ∀ j < (historyOf l).length - k, maxTokens < sumTokens ((historyOf l).drop j) := by
  have hllm : (runAdds (freshMemory n0) l).llmMessages = historyOf l := by
    simpa [freshMemory] using runAdds_llmMessages l (freshMemory n0) h
  obtain ⟨p, q, hsplit, hloop, hle, hq⟩ :=
    ctxLoop_spec maxTokens ((historyOf l).reverse) [] 0 (Nat.zero_le _)
  have hhist : historyOf l = q.reverse ++ p.reverse := by
    rw [← List.reverse_reverse (historyOf l), hsplit]
    simp
  have hlen : (historyOf l).length = q.length + p.length := by
    rw [hhist]; simp [Nat.add_comm]
  have hdropk : (historyOf l).drop q.length = p.reverse := by
    conv_lhs => rw [hhist, ← List.length_reverse q]
    exact List.drop_left _ _
  refine ⟨p.length, by omega, ?_, ?_, ?_⟩
  · have hsub : (historyOf l).length - p.length = q.length := by omega
    rw [hsub, hdropk]
    show (ctxLoop maxTokens (runAdds (freshMemory n0) l).llmMessages.reverse [] 0).1 = _
    rw [hllm, hloop]
    simp
  · have hsub : (historyOf l).length - p.length = q.length := by omega
    rw [hsub, hdropk, sumTokens_reverse]
    omega
  · intro j hj
    have hsub : (historyOf l).length - p.length = q.length := by omega
    rw [hsub] at hj
    obtain ⟨m0, q'', rfl⟩ : ∃ m0 q'', q = m0 :: q'' := by
      cases q with
      | nil => simp at hj
      | cons a b => exact ⟨a, b, rfl⟩
    have hdrop1 : (historyOf l).drop q''.length = m0 :: p.reverse := by
      have hh2 : historyOf l = q''.reverse ++ (m0 :: p.reverse) := by
        rw [hhist]; simp
      conv_lhs => rw [hh2, ← List.length_reverse q'']
      exact List.drop_left _ _
    have hgt : maxTokens < sumTokens ((historyOf l).drop q''.length) := by
      rw [hdrop1]
      have := hq m0 rfl
      simp only [sumTokens, List.map_cons, List.sum_cons, List.map_reverse] at this ⊢
      have hrev : (p.map Message.tokenCount).reverse.sum = (p.map Message.tokenCount).sum :=
        List.sum_reverse _
      omega
    have hmono : sumTokens ((historyOf l).drop q''.length) ≤ sumTokens ((historyOf l).drop j) := by
      apply sumTokens_drop_mono
      simp only [List.length_cons] at hj
      omega
    omega

/-- Witness for claim C3: the role hypothesis holds for `c3Adds` and the main
statement applies at the concrete budget 5. -/
theorem getLLMContext_longest_suffix_witness :
    (∀ p ∈ c3Adds, llmRoles.contains (enrich p.1 p.2).role = true)
    ∧ ∃ k ≤ (historyOf c3Adds).length,
      (getLLMContext (runAdds (freshMemory 0) c3Adds) 5).messages
          = ((historyOf c3Adds).drop ((historyOf c3Adds).length - k)).map projectMsg
      ∧ sumTokens ((historyOf c3Adds).drop ((historyOf c3Adds).length - k)) ≤ 5
      ∧ ∀ j < (historyOf c3Adds).length - k, 5 < sumTokens ((historyOf c3Adds).drop j) :=
  ⟨by decide, getLLMContext_longest_suffix 0 5 c3Adds (by decide)⟩

/-- Counterexample to claim C8 as stated: every key marked required in the
`read` schema is present in `c8Params`, yet validation rejects with the
missing-parameter error — the check `!params[key]` uses JS truthiness, and
the supplied value is the empty string. -/
theorem validateParams_rejects_present_key :
    (readTool.schema.all
        (fun kv => !kv.2.required || (List.map Prod.fst c8Params).contains kv.1)) = true
    ∧ validateParams defaultRegistry "read" c8Params =
        ⟨false, some "缺少必需参数: path"⟩
    ∧ ¬((validateParams defaultRegistry "read" c8Params).valid = true) := by
  refine ⟨by decide, rfl, by decide⟩

theorem validateSchema_eq_find (schema : List (String × ParamSpec)) (params : Params) :
    validateSchema schema params =
      (match schema.find? (fun kv => kv.2.required && !(jsTruthy (lookupParam params kv.1))) with
       | some kv => ⟨false, some ("缺少必需参数: " ++ kv.1)⟩
       | none => ⟨true, none⟩) := by
  induction schema with
  | nil => rfl
  | cons kv rest ih =>
    obtain ⟨key, spec⟩ := kv
    by_cases c : (spec.required && !(jsTruthy (lookupParam params key))) = true
    · simp [validateSchema, List.find?, c]
    · simp only [validateSchema, List.find?, c, if_false, Bool.false_eq_true]
      rw [ih]

/-- Claim C8 (amended): before every tool invocation, validation rejects with
`{valid:false, error:"缺少必需参数: <name>"}` exactly when some key marked
required in the tool's schema is absent from the supplied params **or is
present with a JS-falsy value** (empty string, 0, false, null), naming the
first such key in schema order; in that case the step fails without invoking
the tool's `execute`; when every required key is present with a truthy
value, validation returns `{valid:true}`. -/
theorem validateParams_truthiness (tools : String → Option Tool) (toolName : String)
    (tool : Tool) (params : Params) (h : tools toolName = some tool) :
    validateParams tools toolName params =
      (match tool.schema.find? (fun kv => kv.2.required && !(jsTruthy (lookupParam params kv.1))) with
       | some kv => ⟨false, some ("缺少必需参数: " ++ kv.1)⟩
       | none => ⟨true, none⟩)
    ∧ ∀ (e1 e2 : String → Params → ToolResult) (step : String) (sn ts d : Nat),
        (validateParams tools toolName params).valid = false →
          executeStepWith tools e1 toolName params step sn ts d
              = executeStepWith tools e2 toolName params step sn ts d
          ∧ (executeStepWith tools e1 toolName params step sn ts d).success = false := by
  constructor
  · unfold validateParams
    rw [h]
    exact validateSchema_eq_find tool.schema params
  · intro e1 e2 step sn ts d hinvalid
    constructor
    · unfold executeStepWith
      dsimp only
      rw [hinvalid]
      simp
    · unfold executeStepWith
      dsimp only
      rw [hinvalid]
      simp

/-- Witness for the amended claim C8: the `read` tool exists, a truthy `path`
validates, and an absent `path` fails the step without invoking the tool. -/
theorem validateParams_truthiness_witness :
    defaultRegistry "read" = some readTool
    ∧ validateParams defaultRegistry "read" [("path", JsValue.str "a.txt")] = ⟨true, none⟩
    ∧ (validateParams defaultRegistry "read" [] = ⟨false, some "缺少必需参数: path"⟩
        ∧ (executeStepWith defaultRegistry (fun _ _ => ⟨true, "ran"⟩) "read" [] "读取 a.txt" 1 1 0).success
            = false) := by
  refine ⟨rfl, ?_, ?_, ?_⟩
  · rw [(validateParams_truthiness defaultRegistry "read" readTool
      [("path", JsValue.str "a.txt")] rfl).1]
    rfl
  · rw [(validateParams_truthiness defaultRegistry "read" readTool [] rfl).1]
    rfl
  · exact ((validateParams_truthiness defaultRegistry "read" readTool [] rfl).2
      (fun _ _ => ⟨true, "ran"⟩) (fun _ _ => ⟨false, ""⟩) "读取 a.txt" 1 1 0 rfl).2

/-- Claim C10: `SubAgent.execute` never rejects or throws — for every task
input and every outcome of decomposition, step execution and summarization
(including internal exceptions), it returns a result object carrying a
success flag: `{steps, results, summary, duration, memoryUsage, success:
true}` on the normal path and `{error, duration, success: false}` when an
exception is caught. -/
theorem executeUnit_never_throws (env : UnitEnv) (task : String) :
    (∃ steps results summary,
        executeUnit env task =
          SubAgentResult.ok task steps results summary (env.now - env.start) env.memoryUsage
        ∧ (executeUnit env task).success = true)
    ∨ (∃ e, executeUnit env task = SubAgentResult.err task e (env.now - env.start)
        ∧ (executeUnit env task).success = false) := by
  cases h : runPipeline env with
  | ok v =>
    obtain ⟨steps, results, summary⟩ := v
    left
    refine ⟨steps, results, summary, ?_, ?_⟩ <;> simp [executeUnit, h, SubAgentResult.success]
  | error e =>
    right
    refine ⟨e, ?_, ?_⟩ <;> simp [executeUnit, h, SubAgentResult.success]

/-- Claim C9: cancellation is polled only between steps — a unit whose
cancellation token is set before step 2 begins completes step 1, records
step 1's result, and ends in the aborted terminal state (the abort-interrupt
error returned by `execute`) before step 2 is dispatched; no step is ever
dispatched after the token has been observed set. -/
theorem abort_polled_between_steps (steps : List String) (ab : Nat → Bool)
    (runStep : Nat → String → StepResult)
    (h0 : ab 0 = false) (h1 : ab 1 = true) (hlen : 2 ≤ steps.length) :
    (executeSteps steps ab runStep).dispatched = [0]
    ∧ (executeSteps steps ab runStep).recorded = [runStep 0 (steps.headD "")]
    ∧ (executeSteps steps ab runStep).outcome = .error "SubAgent步骤执行被中断"
    ∧ (∀ i ∈ (executeSteps steps ab runStep).dispatched, ab i = false)
    ∧ ∀ (summ : List StepResult → Except String String) (now start : Nat)
        (mu : MemoryUsage) (task : String),
        executeUnit
            ⟨false, .ok steps, fun _ => (executeSteps steps ab runStep).outcome,
             summ, now, start, mu⟩ task
          = .err task "SubAgent步骤执行被中断" (now - start) := by
  obtain ⟨s0, s1, rest, rfl⟩ : ∃ s0 s1 rest, steps = s0 :: s1 :: rest := by
    cases steps with
    | nil => simp at hlen
    | cons a t =>
      cases t with
      | nil => simp at hlen
      | cons b u => exact ⟨a, b, u, rfl⟩
  have hrun : executeSteps (s0 :: s1 :: rest) ab runStep =
      ⟨[0], [runStep 0 s0], .error "SubAgent步骤执行被中断"⟩ := by
    unfold executeSteps executeStepsLoop
    rw [h0]
    simp only [Bool.false_eq_true, if_false]
    unfold executeStepsLoop
    rw [h1]
    simp
  refine ⟨by rw [hrun], by rw [hrun]; rfl, by rw [hrun], ?_, ?_⟩
  · intro i hi
    rw [hrun] at hi
    simp only [List.mem_singleton] at hi
    subst hi
    exact h0
  · intro summ now start mu task
    rw [hrun]
    rfl

/-- Witness for claim C9 at a concrete two-step task. -/
theorem abort_polled_between_steps_witness :
    c9Ab 0 = false ∧ c9Ab 1 = true ∧ 2 ≤ c9Steps.length
    ∧ (executeSteps c9Steps c9Ab c9RunStep).dispatched = [0]
    ∧ (executeSteps c9Steps c9Ab c9RunStep).recorded = [c9RunStep 0 (c9Steps.headD "")]
    ∧ (executeSteps c9Steps c9Ab c9RunStep).outcome = .error "SubAgent步骤执行被中断" := by
  have h := abort_polled_between_steps c9Steps c9Ab c9RunStep rfl rfl (by decide)
  exact ⟨rfl, rfl, by decide, h.1, h.2.1, h.2.2.1⟩

/-- Claim C2 fails on the code: after the double abort the counter is `-1`
while the map is already empty, so both further `createSubAgent` calls pass
the capacity check and the manager ends up holding 2 active units with
`maxSubAgents = 1`. -/
theorem manager_capacity_violation :
    c2Trace.maxSubAgents = 1 ∧ c2Trace.subAgents.length = 2
    ∧ c2Trace.activeSubAgents = 1 := by decide

theorem createSubAgents_take :
    ∀ (tasks : List TaskInfo) (st : ManagerState) (acc : List TaskInfo),
    (tasks.foldl createStep (st, acc)).2 =
      acc ++ tasks.take ((st.maxSubAgents : Int) - st.activeSubAgents).toNat := by
  intro tasks
  induction tasks with
  | nil => intro st acc; simp
  | cons t rest ih =>
    intro st acc
    by_cases h : (st.maxSubAgents : Int) ≤ st.activeSubAgents
    · have hcap : ((st.maxSubAgents : Int) - st.activeSubAgents).toNat = 0 := by omega
      have hstep : createStep (st, acc) t = (st, acc) := by
        simp [createStep, createSubAgent, h]
      rw [List.foldl_cons, hstep, ih st acc, hcap]
      simp
    · have hcap : 0 < ((st.maxSubAgents : Int) - st.activeSubAgents).toNat := by omega
      have hstep : createStep (st, acc) t =
          ({ st with subAgents := st.subAgents ++ [st.nextId]
                     activeSubAgents := st.activeSubAgents + 1
                     nextId := st.nextId + 1 }, acc ++ [t]) := by
        simp [createStep, createSubAgent, h]
      rw [List.foldl_cons, hstep, ih]
      have hcap' : ((st.maxSubAgents : Int) - (st.activeSubAgents + 1)).toNat =
          ((st.maxSubAgents : Int) - st.activeSubAgents).toNat - 1 := by omega
      obtain ⟨n, hn⟩ : ∃ n, ((st.maxSubAgents : Int) - st.activeSubAgents).toNat = n + 1 :=
        ⟨_, (Nat.succ_pred_eq_of_pos hcap).symm⟩
      simp only [hcap', hn, Nat.add_sub_cancel, List.take_succ_cons, List.append_assoc,
        List.singleton_append]

/-- Claim C7: `executeConcurrent` creates one unit per task info up to the
remaining capacity (task infos beyond capacity are not created, not queued),
runs all created units, and returns a per-unit outcome array in input order
in which each entry is the settled outcome of its own unit alone — no unit's
failure cancels a sibling, and the batch call never throws (every entry is
`fulfilled` because `executeUnit` is total). -/
theorem executeConcurrent_spec (st : ManagerState) (tasks : List TaskInfo)
    (env : TaskInfo → UnitEnv) :
    executeConcurrent st tasks env
      = (tasks.take ((st.maxSubAgents : Int) - st.activeSubAgents).toNat).map
          (fun t => Settled.fulfilled (executeUnit (env t) t.task))
    ∧ (executeConcurrent st tasks env).length
        = min ((st.maxSubAgents : Int) - st.activeSubAgents).toNat tasks.length := by
  have h := createSubAgents_take tasks st []
  constructor
  · unfold executeConcurrent createSubAgents
    rw [h]
    simp
  · unfold executeConcurrent createSubAgents
    rw [h]
    simp

end WkAgent
